import Mathlib

/-!
Verification of the tugboat concurrent repository reconciliation engine.

The definitions below are a shallow embedding of the Go sources:
  - `internal/repo` (manager: status engine, remote reconciler, decision
    engine for pull / push / sync, foldout resolver),
  - `internal/pool` (bounded task runner),
  - `internal/config` (sync options),
  - `internal/remote` (normalized repository records).

External effects (git subprocess invocations, the filesystem, remote HTTP
clients) are modelled as explicit inputs describing the outcome each
external call would produce, so that every embedded function is a pure,
executable Lean function mirroring the Go control flow statement by
statement.
-/

set_option maxHeartbeats 1000000

/-- Models Go `strings.Fields` / `strings.TrimSpace` character class for
the whitespace that actually occurs in git plumbing output (space, tab,
LF, CR). -/
def isSpaceChar (c : Char) : Bool :=
  c = ' ' || c = '\t' || c = '\n' || c = '\r'

/-- Models Go `strings.TrimSpace`: drop leading and trailing whitespace. -/
def goTrim (s : String) : String :=
  String.mk
    (((s.toList.dropWhile isSpaceChar).reverse.dropWhile isSpaceChar).reverse)

/-- Accumulating loop behind `goFields`. -/
def goFieldsAux : List Char → List Char → List String
  | [], acc => if acc.isEmpty then [] else [String.mk acc.reverse]
  | c :: cs, acc =>
    if isSpaceChar c then
      if acc.isEmpty then goFieldsAux cs []
      else String.mk acc.reverse :: goFieldsAux cs []
    else goFieldsAux cs (c :: acc)

/-- Models Go `strings.Fields`: split on whitespace runs, dropping empty
fields. -/
def goFields (s : String) : List String :=
  goFieldsAux s.toList []

/-- Accumulating loop behind `goSplit`. -/
def goSplitAux (sep : Char) : List Char → List Char → List String
  | [], acc => [String.mk acc.reverse]
  | c :: cs, acc =>
    if c = sep then String.mk acc.reverse :: goSplitAux sep cs []
    else goSplitAux sep cs (c :: acc)

/-- Models Go `strings.Split` with a one-character separator, the only form
this code uses. -/
def goSplit (s : String) (sep : Char) : List String :=
  goSplitAux sep s.toList []

/-- Substring search behind `strContains`. -/
def containsSub (sub : List Char) : List Char → Bool
  | [] => sub.isEmpty
  | c :: cs => sub.isPrefixOf (c :: cs) || containsSub sub cs

/-- Models Go `strings.Contains`. -/
def strContains (s sub : String) : Bool :=
  containsSub sub.toList s.toList

/-- Models the first-line truncation in `gitFetchWithStderr`:
`if idx := strings.Index(output, "\n"); idx > 0 { output = output[:idx] }`. -/
def firstLineCut (s : String) : String :=
  match s.toList.findIdx? (fun c => c = '\n') with
  | some i => if i > 0 then String.mk (s.toList.take i) else s
  | none => s

/-- Digit-run accumulation for `scanCount`. -/
def decimalValue : List Char → Nat → Nat
  | [], acc => acc
  | c :: cs, acc => decimalValue cs (acc * 10 + (c.toNat - 48))

/-- Models Go `fmt.Sscanf(s, "%d", &x)` into a count field left at zero when
the scan fails; the fields fed to it by `rev-list --count` are digit runs. -/
def scanCount (s : String) : Nat :=
  let ds := s.toList.takeWhile (fun c => c.isDigit)
  if ds.isEmpty then 0 else decimalValue ds 0

-- ------------ internal/remote: normalized repository record --------------

/-- Structure `remote.Repository` from `internal/remote`.  The Go field `Private` is
renamed `privateFlag` because `private` is a Lean keyword. -/
structure Repository where
  id : Int := 0
  name : String := ""
  fullName : String := ""
  description : String := ""
  cloneURL : String := ""
  sshURL : String := ""
  htmlURL : String := ""
  defaultBranch : String := ""
  empty : Bool := false
  archived : Bool := false
  privateFlag : Bool := false
  fork : Bool := false
deriving DecidableEq, Repr

-- ------------ internal/config: sync options --------------

/-- Structure `config.SyncOptions`: `FFOnly *bool` becomes `Option Bool`. -/
structure SyncOptions where
  ffOnly : Option Bool := none
deriving DecidableEq, Repr

/-- Method `SyncOptions.GetFFOnly`: nil pointer means the default `true`. -/
def SyncOptions.GetFFOnly (s : SyncOptions) : Bool :=
  match s.ffOnly with
  | none => true
  | some b => b

/-- Structure `config.CloneOptions`. -/
structure CloneOptions where
  protocol : String := ""
deriving DecidableEq, Repr

/-- Structure `config.ProviderOptions`. -/
structure ProviderOptions where
  clone : CloneOptions := {}
  sync : SyncOptions := {}
deriving DecidableEq, Repr

/-- Structure `config.Target`. -/
structure Target where
  name : String := ""
  provider : String := ""
  org : String := ""
  repo : String := ""
  path : String := ""
deriving DecidableEq, Repr

-- ------------ repo.RepoStatus --------------

/-- Structure `repo.RepoStatus`: the per-repository status snapshot.  Unset Go struct
fields start at their zero values. -/
structure RepoStatus where
  path : String := ""
  target : String := ""
  provider : String := ""
  org : String := ""
  name : String := ""
  branch : String := ""
  dirty : Bool := false
  ahead : Nat := 0
  behind : Nat := 0
  canFastForward : Bool := false
  archived : Bool := false
  orphan : Bool := false
  remoteError : String := ""
  error : String := ""
deriving DecidableEq, Repr

-- ------------ status engine (getRepoStatus) --------------

/-- Outcomes of the git invocations `getRepoStatus` performs on one
repository, in the order the Go function issues them.  `branchResult`
models `rev-parse --abbrev-ref HEAD` (raw stdout or an error),
`fetchFail` models `fetch --quiet` (`some stderr` when the command exits
nonzero), `statusResult` models `status --porcelain`, `revListResult`
models `rev-list --left-right --count` (`none` when it errors), and
`isAncestor` models whether `merge-base --is-ancestor` exits zero. -/
structure GitEnv where
  branchResult : Except String String
  fetchFail : Option String
  statusResult : Except String String
  revListResult : Option String
  isAncestor : Bool
deriving Repr

/-- Function `gitFetchWithStderr`: empty string on success; on failure, the stderr
output trimmed and truncated to its first line. -/
def gitFetchWithStderr (fetchFail : Option String) : String :=
  match fetchFail with
  | none => ""
  | some stderrOut => firstLineCut (goTrim stderrOut)

/-- The ahead/behind parse inside `getRepoStatus`: on rev-list success,
split into fields and scan the two counts when there are exactly two
fields; any failure leaves both counts at zero. -/
def parseRevList (revListResult : Option String) : Nat × Nat :=
  match revListResult with
  | none => (0, 0)
  | some raw =>
    match goFields (goTrim raw) with
    | [a, b] => (scanCount a, scanCount b)
    | _ => (0, 0)

/-- Function `getRepoStatus` from `internal/repo`: branch resolution (fatal on
failure), fetch (non-fatal, first stderr line recorded), dirty check
(fatal on failure), ahead/behind counts (failure tolerated), and the
fast-forward determination.  Timing is omitted: it never influences the
status outcome. -/
def getRepoStatus (path target org name provider : String) (env : GitEnv) :
    RepoStatus :=
  let status : RepoStatus :=
    { path := path, target := target, provider := provider, org := org,
      name := name }
  match env.branchResult with
  | .error e => { status with error := "getting branch: " ++ e }
  | .ok branchRaw =>
    let status := { status with branch := goTrim branchRaw }
    let fetchErr := gitFetchWithStderr env.fetchFail
    let status :=
      if fetchErr ≠ "" then { status with remoteError := fetchErr } else status
    match env.statusResult with
    | .error e => { status with error := "checking status: " ++ e }
    | .ok dirtyOutput =>
      let status := { status with dirty := goTrim dirtyOutput ≠ "" }
      let counts := parseRevList env.revListResult
      let status := { status with ahead := counts.1, behind := counts.2 }
      if status.behind > 0 then
        { status with canFastForward := env.isAncestor || status.ahead == 0 }
      else
        { status with canFastForward := true }

-- ------------ remote reconciler --------------

/-- Structure `orgKey` from `internal/repo` with its `string()` rendering
`provider + "|" + org`. -/
structure OrgKey where
  provider : String
  org : String
deriving DecidableEq, Repr

/-- Method `orgKey.string()`. -/
def OrgKey.render (k : OrgKey) : String :=
  k.provider ++ "|" ++ k.org

/-- Association-list update with Go map semantics: a later insert for the
same key overwrites the earlier binding under `List.lookup`. -/
def mapInsert {α : Type} (m : List (String × α)) (k : String) (v : α) :
    List (String × α) :=
  (k, v) :: m.filter (fun p => p.1 ≠ k)

/-- The inner loop of `buildRepoIndex`: `m[r.Name] = r` over the listed
repositories. -/
def buildNameMap (repos : List Repository) : List (String × Repository) :=
  repos.foldl (fun m r => mapInsert m r.name r) []

/-- Function `Manager.buildRepoIndex`: for each requested org key, look up the
provider client and list the organization, failing the whole build on the
first missing client or listing error.  `hasClient` models membership in
`m.providers`; `listOrgRepos` models `client.ListOrgRepos`. -/
def buildRepoIndex (hasClient : String → Bool)
    (listOrgRepos : String → String → Except String (List Repository)) :
    List OrgKey → Except String (List (String × List (String × Repository)))
  | [] => .ok []
  | k :: rest =>
    if hasClient k.provider then
      match listOrgRepos k.provider k.org with
      | .error e =>
        .error ("listing repos for " ++ k.provider ++ "/" ++ k.org ++ ": " ++ e)
      | .ok repos =>
        match buildRepoIndex hasClient listOrgRepos rest with
        | .error e => .error e
        | .ok index => .ok (mapInsert index k.render (buildNameMap repos))
    else .error ("no client for provider " ++ k.provider)

/-- The per-status body of `markRemoteState`: org key absent from the index
entirely marks the status orphan; name absent from the org map marks it
orphan; a present name copies the remote archived flag. -/
def markRemoteState1 (index : List (String × List (String × Repository)))
    (s : RepoStatus) : RepoStatus :=
  match index.lookup (OrgKey.render ⟨s.provider, s.org⟩) with
  | none => { s with orphan := true }
  | some repos =>
    match repos.lookup s.name with
    | some r => { s with archived := r.archived }
    | none => { s with orphan := true }

/-- Function `markRemoteState`: the annotation pass over every computed status. -/
def markRemoteState (statuses : List RepoStatus)
    (index : List (String × List (String × Repository))) : List RepoStatus :=
  statuses.map (markRemoteState1 index)

/-- The annotation step of `Manager.getAllStatuses`:
`if len(orgKeys) > 0 { if index, err := m.buildRepoIndex(orgKeys); err == nil
{ markRemoteState(statuses, index) } }` — any index-build error silently
skips the whole pass. -/
def annotateStatuses (hasClient : String → Bool)
    (listOrgRepos : String → String → Except String (List Repository))
    (orgKeys : List OrgKey) (statuses : List RepoStatus) : List RepoStatus :=
  if orgKeys.length > 0 then
    match buildRepoIndex hasClient listOrgRepos orgKeys with
    | .ok index => markRemoteState statuses index
    | .error _ => statuses
  else statuses

-- ------------ foldout resolver --------------

/-- Structure `foldoutRepo`. -/
structure FoldoutRepo where
  name : String
  target : String := ""
deriving DecidableEq, Repr

/-- Structure `foldoutConfig`. -/
structure FoldoutConfig where
  repos : List FoldoutRepo
deriving DecidableEq, Repr

/-- The possible states of the `.tugboat.json` manifest file as seen by
`loadFoldout`: absent (`os.IsNotExist`), unreadable for another reason,
present but rejected by `json.Unmarshal`, or parsed into a config. -/
inductive ManifestFile
  | absent
  | unreadable (e : String)
  | malformed (e : String)
  | parsed (fc : FoldoutConfig)
deriving DecidableEq, Repr

/-- Result of `loadFoldout`: Go returns `(nil, nil)` for a missing file,
`(nil, err)` on failure, and `(&fc, nil)` on success. -/
inductive LoadFoldoutResult
  | noManifest
  | failed (msg : String)
  | loaded (fc : FoldoutConfig)
deriving DecidableEq, Repr

/-- The per-entry loop of `loadFoldout`: reject a repo name that does not
split into exactly two `/`-separated parts, and default an empty target to
the trailing part. -/
def normalizeFoldoutRepos : List FoldoutRepo → Except String (List FoldoutRepo)
  | [] => .ok []
  | r :: rest =>
    let parts := goSplit r.name '/'
    if parts.length ≠ 2 then
      .error ("invalid repo name " ++ r.name ++
        " in .tugboat.json (expected org/repo)")
    else
      let r := if r.target = "" then { r with target := parts.getLastD "" }
               else r
      match normalizeFoldoutRepos rest with
      | .error e => .error e
      | .ok rs => .ok (r :: rs)

/-- Function `loadFoldout`. -/
def loadFoldout (file : ManifestFile) : LoadFoldoutResult :=
  match file with
  | .absent => .noManifest
  | .unreadable e => .failed e
  | .malformed e => .failed ("parsing .tugboat.json: " ++ e)
  | .parsed fc =>
    match normalizeFoldoutRepos fc.repos with
    | .error e => .failed e
    | .ok rs => .loaded ⟨rs⟩

/-- The loop of `cleanFoldoutTargets`, carrying the `seen` set. -/
def cleanFoldoutTargetsAux (seen : List String) :
    List FoldoutRepo → Except String Unit
  | [] => .ok ()
  | r :: rest =>
    if r.target = "" then
      .error ("foldout target empty for " ++ r.name)
    else if strContains r.target ".." then
      .error ("foldout target " ++ r.target ++ " must not contain ..")
    else if seen.contains r.target then
      .error ("duplicate foldout target " ++ r.target)
    else cleanFoldoutTargetsAux (r.target :: seen) rest

/-- Function `cleanFoldoutTargets` (the `base` argument is unused in the Go source
as well). -/
def cleanFoldoutTargets (_base : String) (repos : List FoldoutRepo) :
    Except String Unit :=
  cleanFoldoutTargetsAux [] repos

-- ------------ decision engine: sync --------------

/-- Per-repository outcome of one `Manager.Sync` loop iteration, naming the
counter bumped and the reason printed. -/
inductive SyncOutcome
  | errorReported
  | skippedDirty
  | skippedDiverged
  | pullFailed
  | pushFailed
  | synced
deriving DecidableEq, Repr

/-- The git mutations attempted on one repository. -/
structure GitOps where
  pulls : Nat
  pushes : Nat
deriving DecidableEq, Repr

/-- The per-status body of the `Manager.Sync` loop.  `pullOk` and `pushOk`
model the exit status `gitPull` / `gitPush` would report if invoked. -/
def syncOne (s : RepoStatus) (opts : SyncOptions) (pullOk pushOk : Bool) :
    SyncOutcome × GitOps :=
  if s.error ≠ "" then (.errorReported, ⟨0, 0⟩)
  else if s.dirty then (.skippedDirty, ⟨0, 0⟩)
  else if s.behind > 0 then
    if !s.canFastForward && opts.GetFFOnly then (.skippedDiverged, ⟨0, 0⟩)
    else if !pullOk then (.pullFailed, ⟨1, 0⟩)
    else if s.ahead > 0 then
      if !pushOk then (.pushFailed, ⟨1, 1⟩) else (.synced, ⟨1, 1⟩)
    else (.synced, ⟨1, 0⟩)
  else if s.ahead > 0 then
    if !pushOk then (.pushFailed, ⟨0, 1⟩) else (.synced, ⟨0, 1⟩)
  else (.synced, ⟨0, 0⟩)

-- ------------ decision engine: push --------------

/-- Per-repository outcome of one `Manager.Push` loop iteration. -/
inductive PushOutcome
  | errorReported
  | skippedBehind
  | skippedQuiet
  | pushFailed
  | pushed
deriving DecidableEq, Repr

/-- The per-status body of the `Manager.Push` loop, paired with the number
of push attempts made for that repository. -/
def pushOne (s : RepoStatus) (pushOk : Bool) : PushOutcome × Nat :=
  if s.error ≠ "" then (.errorReported, 0)
  else if s.behind > 0 then (.skippedBehind, 0)
  else if s.ahead == 0 then (.skippedQuiet, 0)
  else if pushOk then (.pushed, 1) else (.pushFailed, 1)

-- ------------ decision engine: pull --------------

/-- A `pullJob` from `Manager.Pull`. -/
structure PullJob where
  path : String
  ffOnly : Bool
deriving DecidableEq, Repr

/-- A directory entry as returned by `os.ReadDir`. -/
structure DirEntry where
  name : String
  isDir : Bool
deriving DecidableEq, Repr

/-- Models `filepath.Join` for the cleaned, nonempty components this code
joins. -/
def filepathJoin (a b : String) : String :=
  a ++ "/" ++ b

/-- The per-target job-building loop of `Manager.Pull`.  For an org target
every git-repo subdirectory becomes a job; for a repo target the path
itself plus every cloned foldout entry becomes a job.  `Manager.Pull`
computes no statuses: jobs carry only a path and the provider-level
fast-forward-only flag. -/
def pullJobsForTarget (entries : List DirEntry) (isRepo : String → Bool)
    (foldout : ManifestFile) (t : Target) (opts : ProviderOptions) :
    Except String (List PullJob) :=
  if t.repo = "" then
    .ok (entries.filterMap (fun e =>
      if e.isDir then
        let p := filepathJoin t.path e.name
        if isRepo p then some ⟨p, opts.sync.GetFFOnly⟩ else none
      else none))
  else
    let base := if isRepo t.path then [PullJob.mk t.path opts.sync.GetFFOnly]
                else []
    match loadFoldout foldout with
    | .failed e => .error e
    | .noManifest => .ok base
    | .loaded fc =>
      .ok (base ++ fc.repos.filterMap (fun fr =>
        let dest := filepathJoin t.path fr.target
        if isRepo dest then some ⟨dest, opts.sync.GetFFOnly⟩ else none))

-- ------------ internal/pool: bounded task runner --------------

/-- State of the worker pool in `pool.Run`: the unconsumed jobs channel
(FIFO), the multiset of items currently held by workers, and the results
channel contents in arrival order. -/
structure PoolState (α β : Type) where
  jobs : List α
  inFlight : List α
  results : List β
deriving Repr

/-- One scheduler decision for the pool: either some idle worker receives
the next job from the jobs channel, or the worker holding in-flight item
`i` delivers its result into the results channel. -/
inductive PoolEvent
  | take
  | deliver (i : Nat)
deriving DecidableEq, Repr

/-- One step of the pool under worker capacity `wcap`: a `take` is enabled
only while fewer than `wcap` items are in flight and the jobs channel is
nonempty; a `deliver i` is enabled only while item `i` is in flight.  A
disabled event leaves the state unchanged. -/
def poolStep {α β : Type} (fn : α → β) (wcap : Nat) (s : PoolState α β) :
    PoolEvent → PoolState α β
  | .take =>
    match s.jobs with
    | [] => s
    | j :: rest =>
      if s.inFlight.length < wcap then
        ⟨rest, s.inFlight ++ [j], s.results⟩
      else s
  | .deliver i =>
    match s.inFlight[i]? with
    | none => s
    | some x => ⟨s.jobs, s.inFlight.eraseIdx i, s.results ++ [fn x]⟩

/-- Run the pool under a scheduler trace. -/
def poolExec {α β : Type} (fn : α → β) (wcap : Nat) (s : PoolState α β) :
    List PoolEvent → PoolState α β
  | [] => s
  | e :: es => poolExec fn wcap (poolStep fn wcap s e) es

/-- The worker-count normalization at the top of `pool.Run`:
`workers <= 0` falls back to `runtime.GOMAXPROCS(0)` (modelled by
`numCPU`), then the count is clamped to the number of items. -/
def normalizeWorkers (workers : Int) (numCPU : Nat) (n : Nat) : Nat :=
  let w := if workers ≤ 0 then numCPU else workers.toNat
  if w > n then n else w

/-- Function `pool.Run`: zero items return immediately with no workers spawned (no
scheduler event is processed); otherwise the pool runs under the
normalized worker capacity from the initial state holding all items. -/
def poolRun {α β : Type} (items : List α) (workers : Int) (numCPU : Nat)
    (fn : α → β) (trace : List PoolEvent) : PoolState α β :=
  if items.length = 0 then ⟨[], [], []⟩
  else poolExec fn (normalizeWorkers workers numCPU items.length)
    ⟨items, [], []⟩ trace

-- ------------ helper lemmas --------------

theorem string_append_ne_empty (s t : String) (h : s ≠ "") : s ++ t ≠ "" := by
  intro hc
  apply h
  have h2 : (s ++ t).data = ([] : List Char) := congrArg String.data hc
  rw [String.data_append] at h2
  rcases List.append_eq_nil.mp h2 with ⟨hs, hts⟩
  cases s
  simp only [String.data] at hs
  simp [hs]

theorem perm_cons_eraseIdx {α : Type} :
    ∀ (l : List α) (i : Nat) (x : α), l[i]? = some x →
      l.Perm (x :: l.eraseIdx i)
  | a :: l, 0, x, h => by
    simp only [List.getElem?_cons_zero, Option.some.injEq] at h
    subst h
    simp [List.eraseIdx]
  | a :: l, i + 1, x, h => by
    simp only [List.getElem?_cons_succ] at h
    have ih := perm_cons_eraseIdx l i x h
    have h1 : (a :: l).Perm (a :: x :: l.eraseIdx i) := ih.cons a
    have h2 : (a :: x :: l.eraseIdx i).Perm (x :: a :: l.eraseIdx i) :=
      List.Perm.swap x a _
    exact h1.trans h2

/-- The multiset content of a pool state: results still queued, results
held by workers, and results already delivered. -/
def poolContent {α β : Type} (fn : α → β) (s : PoolState α β) : List β :=
  s.jobs.map fn ++ s.inFlight.map fn ++ s.results

theorem poolStep_content_perm {α β : Type} (fn : α → β) (wcap : Nat)
    (s : PoolState α β) (e : PoolEvent) :
    (poolContent fn (poolStep fn wcap s e)).Perm (poolContent fn s) := by
  cases e with
  | take =>
    cases hj : s.jobs with
    | nil => simp [poolStep, hj]
    | cons j rest =>
      by_cases hw : s.inFlight.length < wcap
      · simp only [poolStep, hj, if_pos hw, poolContent, List.map_append,
          List.map_cons]
        have hmid :
            ((rest.map fn ++ s.inFlight.map fn) ++ fn j :: s.results).Perm
              (fn j :: ((rest.map fn ++ s.inFlight.map fn) ++ s.results)) :=
          List.perm_middle
        simpa [List.append_assoc] using hmid
      · simp [poolStep, hj, if_neg hw]
  | deliver i =>
    cases hx : s.inFlight[i]? with
    | none => simp [poolStep, hx]
    | some x =>
      simp only [poolStep, hx, poolContent]
      have hmap : (s.inFlight.map fn).Perm
          (fn x :: (s.inFlight.eraseIdx i).map fn) := by
        simpa using (perm_cons_eraseIdx s.inFlight i x hx).map fn
      have h1 : (s.jobs.map fn ++ s.inFlight.map fn ++ s.results).Perm
          ((s.jobs.map fn ++ fn x :: (s.inFlight.eraseIdx i).map fn) ++
            s.results) :=
        (hmap.append_left (s.jobs.map fn)).append_right s.results
      have hC : (s.results ++ [fn x]).Perm (fn x :: s.results) :=
        List.perm_append_singleton (fn x) s.results
      have h4 : ((s.jobs.map fn ++ (s.inFlight.eraseIdx i).map fn) ++
          (s.results ++ [fn x])).Perm
          ((s.jobs.map fn ++ (s.inFlight.eraseIdx i).map fn) ++
            (fn x :: s.results)) :=
        hC.append_left _
      have h5 : ((s.jobs.map fn ++ (s.inFlight.eraseIdx i).map fn) ++
          (fn x :: s.results)).Perm
          (fn x :: ((s.jobs.map fn ++ (s.inFlight.eraseIdx i).map fn) ++
            s.results)) :=
        List.perm_middle
      have h8 : ((s.jobs.map fn ++ fn x :: (s.inFlight.eraseIdx i).map fn) ++
          s.results).Perm
          (fn x :: ((s.jobs.map fn ++ (s.inFlight.eraseIdx i).map fn) ++
            s.results)) :=
        List.perm_middle.append_right s.results
      exact h4.trans (h5.trans (h8.symm.trans h1.symm))

theorem poolExec_content_perm {α β : Type} (fn : α → β) (wcap : Nat) :
    ∀ (trace : List PoolEvent) (s : PoolState α β),
      (poolContent fn (poolExec fn wcap s trace)).Perm (poolContent fn s)
  | [], s => List.Perm.refl _
  | e :: es, s => by
    have h1 := poolExec_content_perm fn wcap es (poolStep fn wcap s e)
    exact h1.trans (poolStep_content_perm fn wcap s e)

-- ------------ claim theorems --------------

/-- C1: For every repository status in a sync run: a set fatal-error field
reports the repository failed with no git operation; a dirty repository is
skipped with no pull and no push; behind with fast-forward infeasible
under the fast-forward-only policy is skipped as diverged with no git
operation; otherwise behind triggers exactly one pull and a pull failure
aborts the repository with no push; after that, ahead triggers exactly one
push; and a clean repository with zero ahead and zero behind counts as
synced with no operation performed. -/
theorem sync_decision (s : RepoStatus) (opts : SyncOptions)
    (pullOk pushOk : Bool) :
    (s.error ≠ "" →
      syncOne s opts pullOk pushOk = (.errorReported, ⟨0, 0⟩)) ∧
    (s.error = "" → s.dirty = true →
      syncOne s opts pullOk pushOk = (.skippedDirty, ⟨0, 0⟩)) ∧
    (s.error = "" → s.dirty = false → s.behind > 0 →
      s.canFastForward = false → opts.GetFFOnly = true →
      syncOne s opts pullOk pushOk = (.skippedDiverged, ⟨0, 0⟩)) ∧
    (s.error = "" → s.dirty = false → s.behind > 0 →
      (s.canFastForward = true ∨ opts.GetFFOnly = false) →
      (syncOne s opts pullOk pushOk).2.pulls = 1 ∧
      (pullOk = false →
        syncOne s opts pullOk pushOk = (.pullFailed, ⟨1, 0⟩))) ∧
    (s.error = "" → s.dirty = false →
      (s.behind > 0 →
        (s.canFastForward = true ∨ opts.GetFFOnly = false) ∧ pullOk = true) →
      s.ahead > 0 → (syncOne s opts pullOk pushOk).2.pushes = 1) ∧
    (s.error = "" → s.dirty = false → s.behind = 0 → s.ahead = 0 →
      syncOne s opts pullOk pushOk = (.synced, ⟨0, 0⟩)) := by
  refine ⟨?_, ?_, ?_, ?_, ?_, ?_⟩
  · intro he
    simp [syncOne, he]
  · intro he hd
    simp [syncOne, he, hd]
  · intro he hd hb hcf hff
    simp [syncOne, he, hd, hb, hcf, hff]
  · intro he hd hb hor
    have hcond : (!s.canFastForward && opts.GetFFOnly) = false := by
      rcases hor with h | h <;> simp [h]
    constructor
    · cases hp : pullOk
      · simp [syncOne, he, hd, hb, hcond, hp]
      · by_cases ha : s.ahead > 0
        · cases hq : pushOk <;> simp [syncOne, he, hd, hb, hcond, hp, ha, hq]
        · simp [syncOne, he, hd, hb, hcond, hp, ha]
    · intro hp
      simp [syncOne, he, hd, hb, hcond, hp]
  · intro he hd hpull ha
    by_cases hb : s.behind > 0
    · obtain ⟨hor, hp⟩ := hpull hb
      have hcond : (!s.canFastForward && opts.GetFFOnly) = false := by
        rcases hor with h | h <;> simp [h]
      cases hq : pushOk <;> simp [syncOne, he, hd, hb, hcond, hp, ha, hq]
    · cases hq : pushOk <;> simp [syncOne, he, hd, hb, ha, hq]
  · intro he hd hb ha
    simp [syncOne, he, hd, hb, ha]

/-- Witness for C1: a clean repository with zero ahead and zero behind is
synced with no git operation. -/
theorem sync_decision_witness :
    syncOne {} {} true true = (SyncOutcome.synced, ⟨0, 0⟩) :=
  (sync_decision {} {} true true).2.2.2.2.2 rfl rfl rfl rfl

/-- C3: In a push run, a status with no fatal error and behind greater than
zero is skipped regardless of the ahead count; behind zero and ahead zero
is skipped silently; otherwise exactly one push is attempted. -/
theorem push_decision (s : RepoStatus) (pushOk : Bool) :
    (s.error = "" → s.behind > 0 → pushOne s pushOk = (.skippedBehind, 0)) ∧
    (s.error = "" → s.behind = 0 → s.ahead = 0 →
      pushOne s pushOk = (.skippedQuiet, 0)) ∧
    (s.error = "" → s.behind = 0 → s.ahead > 0 →
      (pushOne s pushOk).2 = 1) := by
  refine ⟨?_, ?_, ?_⟩
  · intro he hb
    simp [pushOne, he, hb]
  · intro he hb ha
    simp [pushOne, he, hb, ha]
  · intro he hb ha
    have ha2 : (s.ahead == 0) = false := by
      simp
      omega
    cases hq : pushOk <;> simp [pushOne, he, hb, ha2, hq]

/-- Witness for C3: a clean status two commits behind and three ahead is
skipped with no push attempted. -/
theorem push_decision_witness :
    pushOne { behind := 2, ahead := 3 } true = (PushOutcome.skippedBehind, 0) :=
  (push_decision { behind := 2, ahead := 3 } true).1 rfl (by decide)

/-- C4: The remote annotation pass maps every status through one lookup:
a (provider, organization) key absent from the index marks the status
orphan; a known organization missing the repository name marks it orphan;
a present name copies exactly the remote archived flag; and no field other
than archived and orphan is changed. -/
theorem mark_remote_pass (index : List (String × List (String × Repository)))
    (statuses : List RepoStatus) (s : RepoStatus) :
    (markRemoteState statuses index = statuses.map (markRemoteState1 index)) ∧
    (index.lookup (OrgKey.render ⟨s.provider, s.org⟩) = none →
      (markRemoteState1 index s).orphan = true) ∧
    (∀ repos, index.lookup (OrgKey.render ⟨s.provider, s.org⟩) = some repos →
      repos.lookup s.name = none → (markRemoteState1 index s).orphan = true) ∧
    (∀ repos r, index.lookup (OrgKey.render ⟨s.provider, s.org⟩) = some repos →
      repos.lookup s.name = some r →
      (markRemoteState1 index s).archived = r.archived) ∧
    ((markRemoteState1 index s).path = s.path ∧
      (markRemoteState1 index s).target = s.target ∧
      (markRemoteState1 index s).provider = s.provider ∧
      (markRemoteState1 index s).org = s.org ∧
      (markRemoteState1 index s).name = s.name ∧
      (markRemoteState1 index s).branch = s.branch ∧
      (markRemoteState1 index s).dirty = s.dirty ∧
      (markRemoteState1 index s).ahead = s.ahead ∧
      (markRemoteState1 index s).behind = s.behind ∧
      (markRemoteState1 index s).canFastForward = s.canFastForward ∧
      (markRemoteState1 index s).remoteError = s.remoteError ∧
      (markRemoteState1 index s).error = s.error) := by
  refine ⟨rfl, ?_, ?_, ?_, ?_⟩
  · intro h
    simp [markRemoteState1, h]
  · intro repos h1 h2
    simp [markRemoteState1, h1, h2]
  · intro repos r h1 h2
    simp [markRemoteState1, h1, h2]
  · cases h1 : index.lookup (OrgKey.render ⟨s.provider, s.org⟩) with
    | none => simp [markRemoteState1, h1]
    | some repos =>
      cases h2 : repos.lookup s.name with
      | none => simp [markRemoteState1, h1, h2]
      | some r => simp [markRemoteState1, h1, h2]

/-- Witness for C4: with an empty remote index, a default status is marked
orphan. -/
theorem mark_remote_pass_witness : (markRemoteState1 [] {}).orphan = true :=
  (mark_remote_pass [] [] {}).2.1 rfl

-- ------------ status engine helper lemmas --------------

theorem getRepoStatus_branch_error (path target org name provider e : String)
    (ff : Option String) (sr : Except String String) (rv : Option String)
    (anc : Bool) :
    getRepoStatus path target org name provider ⟨.error e, ff, sr, rv, anc⟩ =
      { path := path, target := target, provider := provider, org := org,
        name := name, error := "getting branch: " ++ e } := rfl

theorem getRepoStatus_status_error
    (path target org name provider braw e : String) (ff : Option String)
    (rv : Option String) (anc : Bool) :
    getRepoStatus path target org name provider ⟨.ok braw, ff, .error e, rv, anc⟩ =
      { path := path, target := target, provider := provider, org := org,
        name := name, branch := goTrim braw,
        remoteError := gitFetchWithStderr ff,
        error := "checking status: " ++ e } := by
  by_cases hfe : gitFetchWithStderr ff = "" <;>
    simp [getRepoStatus, hfe]

theorem getRepoStatus_ok_ok (path target org name provider braw dout : String)
    (ff : Option String) (rv : Option String) (anc : Bool) :
    getRepoStatus path target org name provider ⟨.ok braw, ff, .ok dout, rv, anc⟩ =
      { path := path, target := target, provider := provider, org := org,
        name := name, branch := goTrim braw,
        remoteError := gitFetchWithStderr ff,
        dirty := decide (goTrim dout ≠ ""),
        ahead := (parseRevList rv).1,
        behind := (parseRevList rv).2,
        canFastForward :=
          if (parseRevList rv).2 > 0 then anc || ((parseRevList rv).1 == 0)
          else true } := by
  by_cases hfe : gitFetchWithStderr ff = "" <;>
    by_cases hb : (parseRevList rv).2 > 0 <;>
    simp [getRepoStatus, hfe, hb]

/-- C2 as frozen is refuted: a repository whose branch resolution fails is
a status computed by the status engine with behind count zero and
canFastForward false, not true. -/
theorem fast_forward_counterexample :
    (getRepoStatus "/repos/a" "t" "o" "a" "p"
      ⟨.error "exit status 128", none, .ok "", none, false⟩).behind = 0 ∧
    (getRepoStatus "/repos/a" "t" "o" "a" "p"
      ⟨.error "exit status 128", none, .ok "", none, false⟩).canFastForward
      = false :=
  ⟨rfl, rfl⟩

/-- C2 amended: for every status computed by the status engine, if the
fatal-error field is unset and the behind count is zero then
canFastForward is true regardless of the ahead count; if the behind count
is nonzero (which only happens with the fatal-error field unset) then
canFastForward holds exactly when the local branch is an ancestor of the
upstream branch or the ahead count is zero. -/
theorem fast_forward_symmetry (path target org name provider : String)
    (env : GitEnv) :
    ((getRepoStatus path target org name provider env).error = "" →
      (getRepoStatus path target org name provider env).behind = 0 →
      (getRepoStatus path target org name provider env).canFastForward
        = true) ∧
    ((getRepoStatus path target org name provider env).behind ≠ 0 →
      (getRepoStatus path target org name provider env).canFastForward
        = (env.isAncestor ||
            ((getRepoStatus path target org name provider env).ahead == 0))) := by
  obtain ⟨br, ff, sr, rv, anc⟩ := env
  cases br with
  | error e =>
    rw [getRepoStatus_branch_error]
    refine ⟨?_, ?_⟩
    · intro he
      exact absurd he (string_append_ne_empty "getting branch: " e (by decide))
    · intro hb
      simp at hb
  | ok braw =>
    cases sr with
    | error e =>
      rw [getRepoStatus_status_error]
      refine ⟨?_, ?_⟩
      · intro he
        exact absurd he (string_append_ne_empty "checking status: " e (by decide))
      · intro hb
        simp at hb
    | ok dout =>
      rw [getRepoStatus_ok_ok]
      refine ⟨?_, ?_⟩
      · intro _ hb
        simp only at hb ⊢
        simp [hb]
      · intro hb
        simp only at hb ⊢
        simp [Nat.pos_of_ne_zero hb]

/-- Witness for the amended C2: a clean repository with zero behind has
canFastForward true. -/
theorem fast_forward_symmetry_witness :
    (getRepoStatus "/repos/a" "t" "o" "a" "p"
      ⟨.ok "main\n", none, .ok "", some "3\t0\n", false⟩).canFastForward
      = true :=
  (fast_forward_symmetry "/repos/a" "t" "o" "a" "p"
    ⟨.ok "main\n", none, .ok "", some "3\t0\n", false⟩).1 (by decide) (by decide)

/-- C7: A fetch failure is never fatal in the status engine: the status
records only the first line of the trimmed stderr output in the
remote-fetch-error field, while the fatal-error, branch, dirty,
ahead/behind and fast-forward fields are exactly those the same repository
would get with a successful fetch. -/
theorem fetch_failure_nonfatal (path target org name provider : String)
    (braw stderrOut : String) (env : GitEnv)
    (hb : env.branchResult = .ok braw) (hf : env.fetchFail = some stderrOut) :
    (getRepoStatus path target org name provider env).remoteError
      = firstLineCut (goTrim stderrOut) ∧
    (getRepoStatus path target org name provider env).error
      = (getRepoStatus path target org name provider
          { env with fetchFail := none }).error ∧
    (getRepoStatus path target org name provider env).branch
      = (getRepoStatus path target org name provider
          { env with fetchFail := none }).branch ∧
    (getRepoStatus path target org name provider env).dirty
      = (getRepoStatus path target org name provider
          { env with fetchFail := none }).dirty ∧
    (getRepoStatus path target org name provider env).ahead
      = (getRepoStatus path target org name provider
          { env with fetchFail := none }).ahead ∧
    (getRepoStatus path target org name provider env).behind
      = (getRepoStatus path target org name provider
          { env with fetchFail := none }).behind ∧
    (getRepoStatus path target org name provider env).canFastForward
      = (getRepoStatus path target org name provider
          { env with fetchFail := none }).canFastForward := by
  obtain ⟨br, ff, sr, rv, anc⟩ := env
  simp only at hb hf
  subst hb hf
  cases sr with
  | error e =>
    simp only [getRepoStatus_status_error]
    simp [gitFetchWithStderr]
  | ok dout =>
    simp only [getRepoStatus_ok_ok]
    simp [gitFetchWithStderr]

/-- Witness for C7: after a failed fetch with a two-line stderr, the status
keeps an empty fatal-error field and records only the first stderr line. -/
theorem fetch_failure_nonfatal_witness :
    (getRepoStatus "/repos/a" "t" "o" "a" "p"
      ⟨.ok "main\n", some "fatal: unable to access remote\nretrying\n",
        .ok " M file\n", some "1\t2\n", true⟩).remoteError
      = "fatal: unable to access remote" := by
  have h := (fetch_failure_nonfatal "/repos/a" "t" "o" "a" "p" "main\n"
    "fatal: unable to access remote\nretrying\n"
    ⟨.ok "main\n", some "fatal: unable to access remote\nretrying\n",
      .ok " M file\n", some "1\t2\n", true⟩ rfl rfl).1
  exact h.trans (by decide)

/-- C10: When branch resolution fails, the status consists of the identity
fields plus a nonempty fatal-error string, with dirty false, ahead and
behind zero, canFastForward false, branch empty and remote-fetch-error
empty; when the dirty check fails, the status has a nonempty fatal-error
string with dirty false, ahead and behind zero and canFastForward
false. -/
theorem fatal_error_zero_fields (path target org name provider : String)
    (e braw : String) (env : GitEnv) :
    (env.branchResult = .error e →
      (getRepoStatus path target org name provider env).error
          = "getting branch: " ++ e ∧
      (getRepoStatus path target org name provider env).error ≠ "" ∧
      (getRepoStatus path target org name provider env).dirty = false ∧
      (getRepoStatus path target org name provider env).ahead = 0 ∧
      (getRepoStatus path target org name provider env).behind = 0 ∧
      (getRepoStatus path target org name provider env).canFastForward
        = false ∧
      (getRepoStatus path target org name provider env).branch = "" ∧
      (getRepoStatus path target org name provider env).remoteError = "") ∧
    (env.branchResult = .ok braw → ∀ e2 : String,
      env.statusResult = .error e2 →
      (getRepoStatus path target org name provider env).error
          = "checking status: " ++ e2 ∧
      (getRepoStatus path target org name provider env).error ≠ "" ∧
      (getRepoStatus path target org name provider env).dirty = false ∧
      (getRepoStatus path target org name provider env).ahead = 0 ∧
      (getRepoStatus path target org name provider env).behind = 0 ∧
      (getRepoStatus path target org name provider env).canFastForward
        = false) := by
  obtain ⟨br, ff, sr, rv, anc⟩ := env
  refine ⟨?_, ?_⟩
  · intro hbr
    simp only at hbr
    subst hbr
    rw [getRepoStatus_branch_error]
    refine ⟨rfl, string_append_ne_empty "getting branch: " e (by decide),
      rfl, rfl, rfl, rfl, rfl, rfl⟩
  · intro hbr e2 hsr
    simp only at hbr hsr
    subst hbr hsr
    rw [getRepoStatus_status_error]
    exact ⟨rfl, string_append_ne_empty "checking status: " e2 (by decide),
      rfl, rfl, rfl, rfl⟩

/-- Witness for C10: a branch-resolution failure yields a status with the
fatal-error field set and every derived field at its zero value. -/
theorem fatal_error_zero_fields_witness :
    (getRepoStatus "/repos/a" "t" "o" "a" "p"
      ⟨.error "exit status 128", none, .ok "", none, true⟩).error
      = "getting branch: exit status 128" ∧
    (getRepoStatus "/repos/a" "t" "o" "a" "p"
      ⟨.error "exit status 128", none, .ok "", none, true⟩).canFastForward
      = false :=
  ⟨((fatal_error_zero_fields "/repos/a" "t" "o" "a" "p" "exit status 128" ""
      ⟨.error "exit status 128", none, .ok "", none, true⟩).1 rfl).1,
    ((fatal_error_zero_fields "/repos/a" "t" "o" "a" "p" "exit status 128" ""
      ⟨.error "exit status 128", none, .ok "", none, true⟩).1 rfl).2.2.2.2.2.1⟩

-- ------------ foldout helper lemmas --------------

theorem normalizeFoldoutRepos_error_of_badname :
    ∀ l : List FoldoutRepo, (∃ r ∈ l, (goSplit r.name '/').length ≠ 2) →
      ∃ e, normalizeFoldoutRepos l = .error e
  | [], h => by simp at h
  | r :: rest, h => by
    by_cases hr : (goSplit r.name '/').length ≠ 2
    · exact ⟨"invalid repo name " ++ r.name ++
        " in .tugboat.json (expected org/repo)",
        by simp [normalizeFoldoutRepos, hr]⟩
    · push_neg at hr
      rcases h with ⟨x, hx, hxl⟩
      rcases List.mem_cons.mp hx with hxr | hx2
      · exact absurd hxl (by simp [hxr, hr])
      · obtain ⟨e, he⟩ :=
          normalizeFoldoutRepos_error_of_badname rest ⟨x, hx2, hxl⟩
        exact ⟨e, by simp [normalizeFoldoutRepos, hr, he]⟩

theorem normalizeFoldoutRepos_ok_forall2 :
    ∀ l rs : List FoldoutRepo, normalizeFoldoutRepos l = .ok rs →
      List.Forall₂ (fun r r2 =>
        (r.target = "" →
          r2 = { r with target := (goSplit r.name '/').getLastD "" }) ∧
        (r.target ≠ "" → r2 = r)) l rs
  | [], rs, h => by
    simp only [normalizeFoldoutRepos, Except.ok.injEq] at h
    subst h
    exact .nil
  | r :: rest, rs, h => by
    by_cases hr : (goSplit r.name '/').length ≠ 2
    · simp [normalizeFoldoutRepos, hr] at h
    · push_neg at hr
      cases hrec : normalizeFoldoutRepos rest with
      | error e => simp [normalizeFoldoutRepos, hr, hrec] at h
      | ok rs2 =>
        simp only [normalizeFoldoutRepos, hr, ne_eq, not_true_eq_false,
          if_false, hrec, Except.ok.injEq] at h
        subst h
        refine List.Forall₂.cons ?_
          (normalizeFoldoutRepos_ok_forall2 rest rs2 hrec)
        by_cases ht : r.target = ""
        · refine ⟨fun _ => ?_, fun hne => absurd ht hne⟩
          simp [ht]
        · exact ⟨fun heq => absurd heq ht, fun _ => by simp [ht]⟩

theorem cleanFoldoutTargetsAux_ok_iff :
    ∀ (l : List FoldoutRepo) (seen : List String),
      cleanFoldoutTargetsAux seen l = .ok () ↔
        ((∀ r ∈ l, r.target ≠ "" ∧ strContains r.target ".." = false ∧
          r.target ∉ seen) ∧ (l.map FoldoutRepo.target).Nodup)
  | [], seen => by simp [cleanFoldoutTargetsAux]
  | r :: rest, seen => by
    simp only [cleanFoldoutTargetsAux]
    by_cases h1 : r.target = ""
    · simp [h1]
    · rw [if_neg h1]
      by_cases h2 : strContains r.target ".."
      · rw [if_pos h2]
        simp [h1, h2]
      · rw [if_neg h2]
        by_cases h3 : seen.contains r.target
        · rw [if_pos h3]
          have h3m : r.target ∈ seen := by simpa using h3
          simp [h3m]
        · rw [if_neg h3]
          have h3m : r.target ∉ seen := by simpa using h3
          rw [cleanFoldoutTargetsAux_ok_iff rest (r.target :: seen)]
          constructor
          · rintro ⟨hall, hnd⟩
            refine ⟨?_, ?_⟩
            · intro x hx
              rcases List.mem_cons.mp hx with hxr | hx2
              · subst hxr
                exact ⟨h1, by simpa using h2, h3m⟩
              · obtain ⟨ha, hb, hc⟩ := hall x hx2
                exact ⟨ha, hb, fun hmem => hc (List.mem_cons_of_mem _ hmem)⟩
            · rw [List.map_cons, List.nodup_cons]
              refine ⟨?_, hnd⟩
              intro hmem
              obtain ⟨x, hx2, hxt⟩ := List.mem_map.mp hmem
              obtain ⟨_, _, hc⟩ := hall x hx2
              exact hc (by simp [hxt])
          · rintro ⟨hall2, hnd2⟩
            rw [List.map_cons, List.nodup_cons] at hnd2
            refine ⟨?_, hnd2.2⟩
            intro x hx2
            obtain ⟨ha, hb, hc⟩ := hall2 x (List.mem_cons_of_mem _ hx2)
            refine ⟨ha, hb, ?_⟩
            intro hmem
            rcases List.mem_cons.mp hmem with hxr | hxs
            · exact hnd2.1 (List.mem_map.mpr ⟨x, hx2, hxr⟩)
            · exact hc hxs

/-- C8: Foldout manifest handling: an absent manifest file loads as the
distinguished no-manifest result; a repo name that does not split into
exactly two segments fails the load; an entry with an empty target
directory receives the trailing segment of its repo name while a nonempty
target is kept; and validation succeeds exactly when every target is
nonempty, free of "..", and no two entries share a target. -/
theorem foldout_manifest_handling :
    (loadFoldout .absent = .noManifest) ∧
    (∀ fc : FoldoutConfig, ∀ r ∈ fc.repos,
      (goSplit r.name '/').length ≠ 2 →
      ∃ e, loadFoldout (.parsed fc) = .failed e) ∧
    (∀ fc : FoldoutConfig, ∀ rs : FoldoutConfig,
      loadFoldout (.parsed fc) = .loaded rs →
      List.Forall₂ (fun r r2 =>
        (r.target = "" →
          r2 = { r with target := (goSplit r.name '/').getLastD "" }) ∧
        (r.target ≠ "" → r2 = r)) fc.repos rs.repos) ∧
    (∀ (base : String) (repos : List FoldoutRepo),
      cleanFoldoutTargets base repos = .ok () ↔
        (∀ r ∈ repos, r.target ≠ "" ∧ strContains r.target ".." = false) ∧
        (repos.map FoldoutRepo.target).Nodup) := by
  refine ⟨rfl, ?_, ?_, ?_⟩
  · intro fc r hr hbad
    obtain ⟨e, he⟩ :=
      normalizeFoldoutRepos_error_of_badname fc.repos ⟨r, hr, hbad⟩
    exact ⟨e, by simp [loadFoldout, he]⟩
  · intro fc rs h
    cases hn : normalizeFoldoutRepos fc.repos with
    | error e => simp [loadFoldout, hn] at h
    | ok rs2 =>
      simp only [loadFoldout, hn, LoadFoldoutResult.loaded.injEq] at h
      subst h
      exact normalizeFoldoutRepos_ok_forall2 fc.repos rs2 hn
  · intro base repos
    rw [cleanFoldoutTargets, cleanFoldoutTargetsAux_ok_iff]
    simp

/-- Witness for C8: a two-entry manifest with distinct clean targets
validates. -/
theorem foldout_manifest_handling_witness :
    cleanFoldoutTargets "/work" [⟨"org/a", "liba"⟩, ⟨"org/b", "libb"⟩]
      = .ok () :=
  (foldout_manifest_handling.2.2.2 "/work"
    [⟨"org/a", "liba"⟩, ⟨"org/b", "libb"⟩]).mpr (by decide)

-- ------------ C5 scenario --------------

/-- A provider map containing a client for every provider name. -/
def cHasClient : String → Bool := fun _ => true

/-- A remote listing where organization orgA fails and every other
organization lists successfully as empty. -/
def cListOrg : String → String → Except String (List Repository) :=
  fun _ org => if org = "orgA" then .error "server unreachable" else .ok []

/-- The two org keys touched by the expanded targets in the scenario. -/
def cOrgKeys : List OrgKey := [⟨"gitea", "orgA"⟩, ⟨"gitea", "orgB"⟩]

/-- A status in orgB whose repository name is absent from the successful
orgB listing. -/
def cStatusB : RepoStatus := { provider := "gitea", org := "orgB", name := "gone" }

/-- C5 as frozen is refuted: orgA's listing fails while orgB's listing
succeeds and does not contain the repository, yet the run leaves the orgB
status unannotated with its orphan flag still false, because one failed
listing aborts the whole index build and skips the entire annotation
pass. -/
theorem degraded_remote_marking_counterexample :
    cListOrg "gitea" "orgB" = .ok [] ∧
    annotateStatuses cHasClient cListOrg cOrgKeys [cStatusB] = [cStatusB] ∧
    cStatusB.orphan = false :=
  ⟨rfl, rfl, rfl⟩

/-- C5 amended: when listing any organization fails during reconciliation,
the index build returns an error and the entire annotation pass is
skipped, leaving every status unchanged with archived and orphan at their
default false; the failure is non-fatal, and the run still returns a
status for every repository. -/
theorem degraded_remote_marking (hasClient : String → Bool)
    (listOrgRepos : String → String → Except String (List Repository))
    (orgKeys : List OrgKey) (statuses : List RepoStatus) :
    (∀ e, buildRepoIndex hasClient listOrgRepos orgKeys = .error e →
      annotateStatuses hasClient listOrgRepos orgKeys statuses = statuses) ∧
    (annotateStatuses hasClient listOrgRepos orgKeys statuses).length
      = statuses.length := by
  constructor
  · intro e he
    by_cases h : orgKeys.length > 0
    · simp [annotateStatuses, h, he]
    · simp [annotateStatuses, h]
  · by_cases h : orgKeys.length > 0
    · cases hb : buildRepoIndex hasClient listOrgRepos orgKeys with
      | error e => simp [annotateStatuses, h, hb]
      | ok idx => simp [annotateStatuses, h, hb, markRemoteState]
    · simp [annotateStatuses, h]

/-- Witness for the amended C5: with orgA failing, the orgB status comes
back unchanged. -/
theorem degraded_remote_marking_witness :
    annotateStatuses cHasClient cListOrg cOrgKeys [cStatusB] = [cStatusB] :=
  (degraded_remote_marking cHasClient cListOrg cOrgKeys [cStatusB]).1
    "listing repos for gitea/orgA: server unreachable" rfl

-- ------------ C6 scenario --------------

/-- Git responses for a repository in detached-HEAD state: branch
resolution fails, which is a fatal status error. -/
def cBadEnv : GitEnv := ⟨.error "exit status 128", none, .ok "", none, false⟩

/-- A filesystem in which exactly the single-repo target path is a git
working copy. -/
def cIsRepo : String → Bool := fun p => p = "/work/tool"

/-- A single-repository target. -/
def cRepoTarget : Target :=
  { name := "tool", provider := "gitea", org := "o", repo := "tool",
    path := "/work/tool" }

/-- C6 as frozen is refuted: the status the engine computes for the target
repository carries a fatal error, yet the pull run still builds exactly
one pull job for it, because `Manager.Pull` never consults repository
statuses. -/
theorem pull_fatal_error_counterexample :
    (getRepoStatus "/work/tool" "tool" "o" "tool" "gitea" cBadEnv).error
      ≠ "" ∧
    pullJobsForTarget [] cIsRepo .absent cRepoTarget {} =
      .ok [⟨"/work/tool", true⟩] :=
  ⟨by decide, rfl⟩

/-- C6 amended: a pull run enumerates git working copies without consulting
statuses, so every enumerated working copy is pulled regardless of any
fatal status error; every pull job carries the fast-forward-only flag from
the provider-level sync configuration, which defaults to true when the
option is unset. -/
theorem pull_decision (entries : List DirEntry) (isRepo : String → Bool)
    (fold : ManifestFile) (t : Target) (opts : ProviderOptions)
    (jobs : List PullJob)
    (h : pullJobsForTarget entries isRepo fold t opts = .ok jobs) :
    (∀ j ∈ jobs, j.ffOnly = opts.sync.GetFFOnly ∧ isRepo j.path = true) ∧
    (opts.sync.ffOnly = none → opts.sync.GetFFOnly = true) ∧
    (t.repo ≠ "" → isRepo t.path = true →
      PullJob.mk t.path opts.sync.GetFFOnly ∈ jobs) := by
  by_cases hrepo : t.repo = ""
  · simp only [pullJobsForTarget, hrepo, if_true, Except.ok.injEq] at h
    refine ⟨?_, ?_, ?_⟩
    · intro j hj
      rw [← h] at hj
      obtain ⟨e, _, hfe⟩ := List.mem_filterMap.mp hj
      by_cases hd : e.isDir
      · by_cases hg : isRepo (filepathJoin t.path e.name)
        · simp only [hd, if_true, hg, Option.some.injEq] at hfe
          subst hfe
          exact ⟨rfl, hg⟩
        · simp [hd, hg] at hfe
      · simp [hd] at hfe
    · intro hn
      simp [SyncOptions.GetFFOnly, hn]
    · intro ht
      exact absurd hrepo ht
  · simp only [pullJobsForTarget, hrepo, if_false] at h
    cases hl : loadFoldout fold with
    | failed e => rw [hl] at h; exact absurd h (by simp)
    | noManifest =>
      rw [hl] at h
      simp only [Except.ok.injEq] at h
      refine ⟨?_, ?_, ?_⟩
      · intro j hj
        rw [← h] at hj
        by_cases hg : isRepo t.path
        · simp only [if_pos hg, List.mem_singleton] at hj
          subst hj
          exact ⟨rfl, hg⟩
        · simp [hg] at hj
      · intro hn
        simp [SyncOptions.GetFFOnly, hn]
      · intro _ hg
        rw [← h, if_pos hg]
        exact List.mem_singleton.mpr rfl
    | loaded fc =>
      rw [hl] at h
      simp only [Except.ok.injEq] at h
      refine ⟨?_, ?_, ?_⟩
      · intro j hj
        rw [← h] at hj
        rcases List.mem_append.mp hj with hb | hf
        · by_cases hg : isRepo t.path
          · simp only [if_pos hg, List.mem_singleton] at hb
            subst hb
            exact ⟨rfl, hg⟩
          · simp [hg] at hb
        · obtain ⟨fr, _, hfe⟩ := List.mem_filterMap.mp hf
          by_cases hg : isRepo (filepathJoin t.path fr.target)
          · simp only [hg, if_true, Option.some.injEq] at hfe
            subst hfe
            exact ⟨rfl, hg⟩
          · simp [hg] at hfe
      · intro hn
        simp [SyncOptions.GetFFOnly, hn]
      · intro _ hg
        rw [← h]
        refine List.mem_append.mpr (.inl ?_)
        rw [if_pos hg]
        exact List.mem_singleton.mpr rfl

/-- Witness for the amended C6: the single-repo target path is pulled with
the default fast-forward-only flag. -/
theorem pull_decision_witness :
    PullJob.mk "/work/tool" (SyncOptions.GetFFOnly {}) ∈
      [PullJob.mk "/work/tool" true] :=
  (pull_decision [] cIsRepo .absent cRepoTarget {}
    [PullJob.mk "/work/tool" true] rfl).2.2 (by decide) (by decide)

/-- C9: The bounded task runner, under every scheduler trace that drains
the jobs channel and all in-flight work, returns exactly N results whose
multiset is exactly one fn-image per input; a nonpositive worker count is
replaced by the number of available processing units and the count is
clamped to N; zero inputs return an empty result set with no scheduler
event processed. -/
theorem pool_run_contract {α β : Type} [DecidableEq β] (items : List α)
    (workers : Int) (numCPU : Nat) (fn : α → β) (trace : List PoolEvent) :
    (items = [] → poolRun items workers numCPU fn trace = ⟨[], [], []⟩) ∧
    ((poolRun items workers numCPU fn trace).jobs = [] →
      (poolRun items workers numCPU fn trace).inFlight = [] →
      (poolRun items workers numCPU fn trace).results.length = items.length ∧
      (poolRun items workers numCPU fn trace).results.Perm (items.map fn) ∧
      ∀ y : β, (poolRun items workers numCPU fn trace).results.count y
        = (items.map fn).count y) ∧
    (workers ≤ 0 →
      normalizeWorkers workers numCPU items.length
        = min numCPU items.length) ∧
    (0 < workers →
      normalizeWorkers workers numCPU items.length
        = min workers.toNat items.length) ∧
    normalizeWorkers workers numCPU items.length ≤ items.length := by
  refine ⟨?_, ?_, ?_, ?_, ?_⟩
  · intro hnil
    simp [poolRun, hnil]
  · intro hjobs hinf
    have hperm : (poolRun items workers numCPU fn trace).results.Perm
        (items.map fn) := by
      by_cases hitems : items = []
      · subst hitems
        simp [poolRun]
      · have hne : items.length ≠ 0 := by
          intro h0
          exact hitems (List.length_eq_zero.mp h0)
        have hrun : poolRun items workers numCPU fn trace
            = poolExec fn (normalizeWorkers workers numCPU items.length)
              ⟨items, [], []⟩ trace := by
          simp [poolRun, hne]
        have hcontent := poolExec_content_perm fn
          (normalizeWorkers workers numCPU items.length) trace
          ⟨items, [], []⟩
        rw [← hrun] at hcontent
        unfold poolContent at hcontent
        rw [hjobs, hinf] at hcontent
        simpa using hcontent
    exact ⟨hperm.length_eq.trans (by simp), hperm,
      fun y => hperm.count_eq y⟩
  · intro h
    simp only [normalizeWorkers, if_pos h, Nat.min_def]
    split <;> split <;> omega
  · intro h
    have h2 : ¬ workers ≤ 0 := by omega
    simp only [normalizeWorkers, if_neg h2, Nat.min_def]
    split <;> split <;> omega
  · simp only [normalizeWorkers]
    split <;> split <;> omega

/-- Witness for C9: three inputs under two workers and an explicit
draining trace yield exactly three results. -/
theorem pool_run_contract_witness :
    (poolRun [1, 2, 3] 0 2 (fun n : Nat => 2 * n)
      [PoolEvent.take, .take, .deliver 0, .take, .deliver 1,
        .deliver 0]).results.length = 3 :=
  ((pool_run_contract [1, 2, 3] 0 2 (fun n : Nat => 2 * n)
    [PoolEvent.take, .take, .deliver 0, .take, .deliver 1,
      .deliver 0]).2.1 (by decide) (by decide)).1
